import Mathlib

/-!
Verification development for the go-etl repository (pkg/bucket/bucket.go,
pkg/etl/etl.go, pkg/etl/manager.go).

The Go code is shallowly embedded:

* A `Bucket` worker (`Bucket.worker` in bucket.go) is a loop that reacts to
  events: an item arriving on the intake channel, a ticker tick, the channel
  being closed, or context cancellation.  We model one worker as a function
  over an explicit finite trace of such events (`Event`), with the local
  batch buffer (`queue` in the Go code) passed as explicit state.
* The `flush` closure of the worker is `flushGo`.
* `Bucket.Run` with several workers is modelled by giving each worker its own
  event trace: the shared intake channel delivers every submitted item to
  exactly one worker, so a schedule of a run is a family of traces whose
  items partition the submitted sequence.  The error channel `errCh` keeps
  errors in send order and `Run` returns the first one; the list order of the
  worker traces models that send order.
* `ETL.Run` (etl.go) and `pipelineAdapter.Run` / `Manager.RunAll`
  (manager.go) are modelled as sequential functions; the feeder goroutine is
  deterministic (it consumes the extraction stream in order and stops at the
  first error payload or at end of stream), and with one worker and no timer
  fires the whole run is deterministic.
-/

namespace GoEtl

/-- One event observed by a bucket worker in its `select` loop:
an item received from the intake channel, a ticker tick, the intake channel
being closed (`ok == false`), or context cancellation (`ctx.Done()`). -/
inductive Event (α : Type) where
  | item (a : α)
  | tick
  | closeCh
  | ctxDone
deriving DecidableEq, Repr

/-- Result of running one bucket worker to completion:
`batches` are the batches handed to the handler in order (including a batch
on which the handler failed), `err` is `some b` when the worker returned the
handler's error raised on batch `b` (Go: `processFunc` returned non-nil),
`finalQueue` is the value of the local `queue` variable when the worker
returned, and `consumed` lists the items the worker dequeued from the intake
channel, in order. -/
structure WorkerOut (α : Type) where
  batches : List (List α)
  err : Option (List α)
  finalQueue : List α
  consumed : List α
deriving DecidableEq, Repr

/-- The worker's `flush` closure (bucket.go):
if the queue is non-empty it calls `processFunc` on it; on handler error it
returns that error at once (the queue reset line is not reached), on success
it resets the queue to empty.  Returns the queue value after the call and
`some q` when the handler failed on batch `q`, `none` otherwise.
The handler is modelled as `List α → Bool` (`true` = nil error). -/
def flushGo (handler : List α → Bool) (q : List α) : List α × Option (List α) :=
  if q.isEmpty then (q, none)
  else if handler q then ([], none)
  else (q, some q)

/-- One bucket worker (`Bucket.worker` in bucket.go) run over an explicit
event trace, with batch-size threshold `B` and the local queue as state:

* `ctx.Done()` or channel closed: return `flush()`;
* tick: `flush()`, return its error if any, else continue;
* item: append to the queue; if the queue length reached `B`, `flush()`,
  return its error if any, else continue.

An exhausted trace models a worker still blocked in `select`; the traces of
interest end in `closeCh` or `ctxDone`. -/
def workerGo (B : Nat) (handler : List α → Bool) :
    List (Event α) → List α → WorkerOut α
  | [], q => ⟨[], none, q, []⟩
  | Event.ctxDone :: _, q =>
    match flushGo handler q with
    | (q1, e) => ⟨if q.isEmpty then [] else [q], e, q1, []⟩
  | Event.closeCh :: _, q =>
    match flushGo handler q with
    | (q1, e) => ⟨if q.isEmpty then [] else [q], e, q1, []⟩
  | Event.tick :: es, q =>
    match flushGo handler q with
    | (q1, none) =>
      let r := workerGo B handler es q1
      ⟨(if q.isEmpty then [] else [q]) ++ r.batches, r.err, r.finalQueue, r.consumed⟩
    | (q1, some b) => ⟨[q], some b, q1, []⟩
  | Event.item a :: es, q =>
    let q2 := q ++ [a]
    if B ≤ q2.length then
      match flushGo handler q2 with
      | (q1, none) =>
        let r := workerGo B handler es q1
        ⟨q2 :: r.batches, r.err, r.finalQueue, a :: r.consumed⟩
      | (q1, some b) => ⟨[q2], some b, q1, [a]⟩
    else
      let r := workerGo B handler es q2
      ⟨r.batches, r.err, r.finalQueue, a :: r.consumed⟩

/-- Whether an event ends the worker's loop (channel closed or context
cancelled). -/
def isEnd : Event α → Bool
  | Event.closeCh => true
  | Event.ctxDone => true
  | _ => false

/-- A trace after which the worker has certainly returned: it contains a
close or cancellation event. -/
def terminated (es : List (Event α)) : Bool := es.any isEnd

/-- The items a trace offers to the worker before the first close or
cancellation event (what the worker dequeues if no handler error stops it
earlier). -/
def itemsOf : List (Event α) → List α
  | [] => []
  | Event.closeCh :: _ => []
  | Event.ctxDone :: _ => []
  | Event.tick :: es => itemsOf es
  | Event.item a :: es => a :: itemsOf es

/-- Splitting a list into consecutive chunks of size `B` (the last chunk may
be shorter).  The `B = 0` case is junk, never used: the bucket clamps the
batch size to a positive value. -/
def chunksOf : Nat → List α → List (List α)
  | _, [] => []
  | 0, l => [l]
  | B + 1, a :: l => ((a :: l).take (B + 1)) :: chunksOf (B + 1) ((a :: l).drop (B + 1))
termination_by _ l => l.length
decreasing_by simp [List.length_drop]; omega

/-! ### Basic facts about `flushGo` -/

lemma flushGo_nil (handler : List α → Bool) : flushGo handler [] = ([], none) := by
  simp [flushGo]

lemma flushGo_true {handler : List α → Bool} {q : List α} (h : handler q = true) :
    flushGo handler q = ([], none) := by
  rcases eq_or_ne q [] with rfl | hq
  · simp [flushGo]
  · simp [flushGo, List.isEmpty_iff, hq, h]

lemma flushGo_false {handler : List α → Bool} {q : List α} (hq : q ≠ [])
    (h : handler q = false) : flushGo handler q = (q, some q) := by
  simp [flushGo, List.isEmpty_iff, hq, h]

/-! ### Basic facts about `chunksOf` -/

lemma chunksOf_eq_nil_iff (B : Nat) (l : List α) : chunksOf B l = [] ↔ l = [] := by
  constructor
  · intro h
    by_contra hne
    rcases l with _ | ⟨a, t⟩
    · exact hne rfl
    · rcases B with _ | B
      · simp [chunksOf] at h
      · rw [chunksOf] at h
        exact absurd h (by simp)
  · rintro rfl
    simp [chunksOf]

lemma chunksOf_of_short (B : Nat) (l : List α) (hne : l ≠ []) (hlen : l.length ≤ B) :
    chunksOf B l = [l] := by
  rcases l with _ | ⟨a, t⟩
  · exact absurd rfl hne
  · rcases B with _ | B
    · simp at hlen
    · rw [chunksOf, List.take_of_length_le hlen, List.drop_of_length_le hlen]
      simp [chunksOf]

lemma chunksOf_append (B : Nat) (l r : List α) (hne : l ≠ []) (hlen : l.length = B) :
    chunksOf B (l ++ r) = l :: chunksOf B r := by
  rcases l with _ | ⟨a, t⟩
  · exact absurd rfl hne
  · rcases B with _ | B
    · simp at hlen
    · have hcons : (a :: t) ++ r = a :: (t ++ r) := rfl
      rw [hcons, chunksOf, ← hcons, ← hlen, List.take_left, List.drop_left]

lemma chunksOf_flatten (B : Nat) (l : List α) : (chunksOf B l).flatten = l := by
  induction B, l using chunksOf.induct with
  | case1 B => simp [chunksOf]
  | case2 l hne => simp [chunksOf, hne]
  | case3 B a l ih =>
    rw [chunksOf]
    simp only [List.flatten_cons, ih, List.take_append_drop]

lemma chunksOf_length (B : Nat) (l : List α) :
    1 ≤ B → (chunksOf B l).length = (l.length + B - 1) / B := by
  induction B, l using chunksOf.induct with
  | case1 B =>
    intro hB
    rw [chunksOf]
    simp only [List.length_nil, Nat.zero_add]
    exact (Nat.div_eq_of_lt (by omega)).symm
  | case2 l hne => intro hB; exact absurd hB (by omega)
  | case3 B a l ih =>
    intro hB
    rw [chunksOf, List.length_cons, ih (by omega), List.length_drop, List.length_cons]
    by_cases hm : l.length ≤ B
    · have h0 : l.length + 1 - (B + 1) = 0 := by omega
      rw [h0]
      have e1 : (0 + (B + 1) - 1) / (B + 1) = 0 := Nat.div_eq_of_lt (by omega)
      have e2 : (l.length + 1 + (B + 1) - 1) / (B + 1) = 1 := by
        apply Nat.div_eq_of_lt_le <;> omega
      rw [e1, e2]
    · have h1 : l.length + 1 - (B + 1) + (B + 1) - 1 = l.length := by omega
      have h2 : l.length + 1 + (B + 1) - 1 = l.length + (B + 1) := by omega
      rw [h1, h2, Nat.add_div_right _ (by omega)]

lemma chunksOf_dropLast (B : Nat) (l : List α) :
    1 ≤ B → ∀ c ∈ (chunksOf B l).dropLast, c.length = B := by
  induction B, l using chunksOf.induct with
  | case1 B => intro _ c hc; simp [chunksOf] at hc
  | case2 l hne => intro hB; exact absurd hB (by omega)
  | case3 B a l ih =>
    intro hB c hc
    rw [chunksOf] at hc
    rcases eq_or_ne ((a :: l).drop (B + 1)) [] with hd | hd
    · rw [hd] at hc
      simp [chunksOf] at hc
    · have hrest : chunksOf (B + 1) ((a :: l).drop (B + 1)) ≠ [] := by
        rw [Ne, chunksOf_eq_nil_iff]; exact hd
      rw [List.dropLast_cons_of_ne_nil hrest] at hc
      rcases List.mem_cons.mp hc with rfl | hc2
      · have hlen : B + 1 < (a :: l).length := List.length_lt_of_drop_ne_nil hd
        rw [List.length_take]
        omega
      · exact ih (by omega) c hc2

lemma chunksOf_getLast (B : Nat) (l : List α) :
    1 ≤ B → l ≠ [] →
    (chunksOf B l).getLast?.map List.length
      = some (if l.length % B = 0 then B else l.length % B) := by
  induction B, l using chunksOf.induct with
  | case1 B => intro _ hne; exact absurd rfl hne
  | case2 l hne => intro hB _; exact absurd hB (by omega)
  | case3 B a l ih =>
    intro hB _
    rcases eq_or_ne ((a :: l).drop (B + 1)) [] with hd | hd
    · have hlen : (a :: l).length ≤ B + 1 := List.drop_eq_nil_iff.mp hd
      rw [chunksOf, hd, List.take_of_length_le hlen]
      rw [chunksOf]
      rcases Nat.lt_or_ge (a :: l).length (B + 1) with h | h
      · have h2 : l.length + 1 < B + 1 := by simpa using h
        simp only [List.getLast?_singleton, Option.map_some', List.length_cons]
        rw [Nat.mod_eq_of_lt h2, if_neg (by omega)]
      · have heq : (a :: l).length = B + 1 := le_antisymm hlen h
        simp [heq, Nat.mod_self]
    · have hrest : chunksOf (B + 1) ((a :: l).drop (B + 1)) ≠ [] := by
        rw [Ne, chunksOf_eq_nil_iff]; exact hd
      obtain ⟨r, rs, hr⟩ := List.exists_cons_of_ne_nil hrest
      have hlen : B + 1 < (a :: l).length := List.length_lt_of_drop_ne_nil hd
      rw [chunksOf, hr, List.getLast?_cons_cons, ← hr, ih (by omega) hd]
      rw [List.length_drop, List.length_cons]
      have hlen2 : B + 1 ≤ l.length + 1 := by
        rw [List.length_cons] at hlen; omega
      have hmod : (l.length + 1) % (B + 1) = (l.length + 1 - (B + 1)) % (B + 1) :=
        Nat.mod_eq_sub_mod hlen2
      simp only [Nat.succ_eq_add_one]
      rw [← hmod]

/-! ### Step lemmas: one `select` iteration of the worker loop -/

section Steps

variable {B : Nat} {handler : List α → Bool} {q : List α} {a : α} {es : List (Event α)}

lemma wg_nil : workerGo B handler ([] : List (Event α)) q = ⟨[], none, q, []⟩ := rfl

lemma wg_close_nil : workerGo B handler (Event.closeCh :: es) [] = ⟨[], none, [], []⟩ := by
  rw [workerGo, flushGo_nil]
  simp

lemma wg_close_ok (hq : q ≠ []) (h : handler q = true) :
    workerGo B handler (Event.closeCh :: es) q = ⟨[q], none, [], []⟩ := by
  rw [workerGo, flushGo_true h]
  simp [List.isEmpty_iff, hq]

lemma wg_close_err (hq : q ≠ []) (h : handler q = false) :
    workerGo B handler (Event.closeCh :: es) q = ⟨[q], some q, q, []⟩ := by
  rw [workerGo, flushGo_false hq h]
  simp [List.isEmpty_iff, hq]

lemma wg_ctx_nil : workerGo B handler (Event.ctxDone :: es) [] = ⟨[], none, [], []⟩ := by
  rw [workerGo, flushGo_nil]
  simp

lemma wg_ctx_ok (hq : q ≠ []) (h : handler q = true) :
    workerGo B handler (Event.ctxDone :: es) q = ⟨[q], none, [], []⟩ := by
  rw [workerGo, flushGo_true h]
  simp [List.isEmpty_iff, hq]

lemma wg_ctx_err (hq : q ≠ []) (h : handler q = false) :
    workerGo B handler (Event.ctxDone :: es) q = ⟨[q], some q, q, []⟩ := by
  rw [workerGo, flushGo_false hq h]
  simp [List.isEmpty_iff, hq]

lemma wg_tick_nil : workerGo B handler (Event.tick :: es) [] = workerGo B handler es [] := by
  rw [workerGo, flushGo_nil]
  simp

lemma wg_tick_ok (hq : q ≠ []) (h : handler q = true) :
    workerGo B handler (Event.tick :: es) q =
      ⟨q :: (workerGo B handler es []).batches, (workerGo B handler es []).err,
       (workerGo B handler es []).finalQueue, (workerGo B handler es []).consumed⟩ := by
  rw [workerGo, flushGo_true h]
  simp [List.isEmpty_iff, hq]

lemma wg_tick_err (hq : q ≠ []) (h : handler q = false) :
    workerGo B handler (Event.tick :: es) q = ⟨[q], some q, q, []⟩ := by
  rw [workerGo, flushGo_false hq h]

lemma wg_item_small (hB : ¬ B ≤ (q ++ [a]).length) :
    workerGo B handler (Event.item a :: es) q =
      ⟨(workerGo B handler es (q ++ [a])).batches, (workerGo B handler es (q ++ [a])).err,
       (workerGo B handler es (q ++ [a])).finalQueue,
       a :: (workerGo B handler es (q ++ [a])).consumed⟩ := by
  rw [workerGo, if_neg hB]

lemma wg_item_flush_ok (hB : B ≤ (q ++ [a]).length) (h : handler (q ++ [a]) = true) :
    workerGo B handler (Event.item a :: es) q =
      ⟨(q ++ [a]) :: (workerGo B handler es []).batches, (workerGo B handler es []).err,
       (workerGo B handler es []).finalQueue, a :: (workerGo B handler es []).consumed⟩ := by
  rw [workerGo, if_pos hB, flushGo_true h]

lemma wg_item_flush_err (hB : B ≤ (q ++ [a]).length) (h : handler (q ++ [a]) = false) :
    workerGo B handler (Event.item a :: es) q =
      ⟨[q ++ [a]], some (q ++ [a]), q ++ [a], [a]⟩ := by
  rw [workerGo, if_pos hB, flushGo_false (by simp) h]

end Steps

/-! ### Invariants of a single bucket worker -/

lemma flatten_cons_aux {fq c : List α} {bs : List (List α)} (x : List α)
    (h : bs.flatten ++ fq = c) : ((x :: bs).flatten) ++ fq = x ++ c := by
  simp [List.append_assoc, h]

lemma flatten_snoc_aux {q fq c : List α} {bs : List (List α)} (x : α)
    (h : bs.flatten ++ fq = c) : (((q ++ [x]) :: bs).flatten) ++ fq = q ++ (x :: c) := by
  simp [List.append_assoc, h]

/-- When the handler never fails, a worker never returns an error. -/
lemma workerGo_err_none (B : Nat) (handler : List α → Bool)
    (hh : ∀ l, handler l = true) (es : List (Event α)) :
    ∀ q : List α, (workerGo B handler es q).err = none := by
  induction es with
  | nil => intro q; rfl
  | cons e es ih =>
    intro q
    cases e with
    | item a =>
      by_cases hB : B ≤ (q ++ [a]).length
      · rw [wg_item_flush_ok hB (hh (q ++ [a]))]
        exact ih []
      · rw [wg_item_small hB]
        exact ih (q ++ [a])
    | tick =>
      rcases eq_or_ne q [] with rfl | hq
      · rw [wg_tick_nil]
        exact ih []
      · rw [wg_tick_ok hq (hh q)]
        exact ih []
    | closeCh =>
      rcases eq_or_ne q [] with rfl | hq
      · rw [wg_close_nil]
      · rw [wg_close_ok hq (hh q)]
    | ctxDone =>
      rcases eq_or_ne q [] with rfl | hq
      · rw [wg_ctx_nil]
      · rw [wg_ctx_ok hq (hh q)]

/-- A worker that completed without error delivered, across its batches and
what is left in its buffer, exactly the initial buffer followed by what it
dequeued, in order. -/
lemma workerGo_join_ok (B : Nat) (handler : List α → Bool) (es : List (Event α)) :
    ∀ q : List α, (workerGo B handler es q).err = none →
      (workerGo B handler es q).batches.flatten ++ (workerGo B handler es q).finalQueue
        = q ++ (workerGo B handler es q).consumed := by
  induction es with
  | nil => intro q _; simp [wg_nil]
  | cons e es ih =>
    intro q herr
    cases e with
    | item a =>
      by_cases hB : B ≤ (q ++ [a]).length
      · cases hqh : handler (q ++ [a]) with
        | false =>
          rw [wg_item_flush_err hB hqh] at herr
          simp at herr
        | true =>
          rw [wg_item_flush_ok hB hqh] at herr ⊢
          exact flatten_snoc_aux a (by simpa using ih [] herr)
      · rw [wg_item_small hB] at herr ⊢
        simpa using ih (q ++ [a]) herr
    | tick =>
      rcases eq_or_ne q [] with rfl | hq
      · rw [wg_tick_nil] at herr ⊢
        simpa using ih [] herr
      · cases hqh : handler q with
        | false =>
          rw [wg_tick_err hq hqh] at herr
          simp at herr
        | true =>
          rw [wg_tick_ok hq hqh] at herr ⊢
          exact flatten_cons_aux q (by simpa using ih [] herr)
    | closeCh =>
      rcases eq_or_ne q [] with rfl | hq
      · rw [wg_close_nil]
        simp
      · cases hqh : handler q with
        | false =>
          rw [wg_close_err hq hqh] at herr
          simp at herr
        | true =>
          rw [wg_close_ok hq hqh]
          simp
    | ctxDone =>
      rcases eq_or_ne q [] with rfl | hq
      · rw [wg_ctx_nil]
        simp
      · cases hqh : handler q with
        | false =>
          rw [wg_ctx_err hq hqh] at herr
          simp at herr
        | true =>
          rw [wg_ctx_ok hq hqh]
          simp

/-- A worker that returned a handler error delivered exactly the initial
buffer followed by everything it dequeued (the failing batch included, since
it was handed to the handler); the failing batch is non-empty, really made
the handler fail, and is still the worker's buffer on return (the reset line
is skipped on error). -/
lemma workerGo_join_err (B : Nat) (handler : List α → Bool) (es : List (Event α)) :
    ∀ q b, (workerGo B handler es q).err = some b →
      (workerGo B handler es q).batches.flatten = q ++ (workerGo B handler es q).consumed
      ∧ (workerGo B handler es q).finalQueue = b ∧ handler b = false ∧ b ≠ [] := by
  induction es with
  | nil => intro q b herr; simp [wg_nil] at herr
  | cons e es ih =>
    intro q b herr
    cases e with
    | item a =>
      by_cases hB : B ≤ (q ++ [a]).length
      · cases hqh : handler (q ++ [a]) with
        | false =>
          rw [wg_item_flush_err hB hqh] at herr ⊢
          obtain rfl : q ++ [a] = b := by simpa using herr
          refine ⟨by simp, rfl, hqh, by simp⟩
        | true =>
          rw [wg_item_flush_ok hB hqh] at herr ⊢
          obtain ⟨h1, h2, h3, h4⟩ := ih [] b (by simpa using herr)
          have h5 : (workerGo B handler es []).batches.flatten
              = (workerGo B handler es []).consumed := by simpa using h1
          refine ⟨?_, h2, h3, h4⟩
          show ((q ++ [a]) :: (workerGo B handler es []).batches).flatten
              = q ++ (a :: (workerGo B handler es []).consumed)
          simp [h5]
      · rw [wg_item_small hB] at herr ⊢
        obtain ⟨h1, h2, h3, h4⟩ := ih (q ++ [a]) b (by simpa using herr)
        refine ⟨?_, h2, h3, h4⟩
        simp only [h1]
        simp
    | tick =>
      rcases eq_or_ne q [] with rfl | hq
      · rw [wg_tick_nil] at herr ⊢
        simpa using ih [] b herr
      · cases hqh : handler q with
        | false =>
          rw [wg_tick_err hq hqh] at herr ⊢
          obtain rfl : q = b := by simpa using herr
          exact ⟨by simp, rfl, hqh, hq⟩
        | true =>
          rw [wg_tick_ok hq hqh] at herr ⊢
          obtain ⟨h1, h2, h3, h4⟩ := ih [] b (by simpa using herr)
          have h5 : (workerGo B handler es []).batches.flatten
              = (workerGo B handler es []).consumed := by simpa using h1
          refine ⟨?_, h2, h3, h4⟩
          show (q :: (workerGo B handler es []).batches).flatten
              = q ++ (workerGo B handler es []).consumed
          simp [h5]
    | closeCh =>
      rcases eq_or_ne q [] with rfl | hq
      · rw [wg_close_nil] at herr
        simp at herr
      · cases hqh : handler q with
        | false =>
          rw [wg_close_err hq hqh] at herr ⊢
          obtain rfl : q = b := by simpa using herr
          exact ⟨by simp, rfl, hqh, hq⟩
        | true =>
          rw [wg_close_ok hq hqh] at herr
          simp at herr
    | ctxDone =>
      rcases eq_or_ne q [] with rfl | hq
      · rw [wg_ctx_nil] at herr
        simp at herr
      · cases hqh : handler q with
        | false =>
          rw [wg_ctx_err hq hqh] at herr ⊢
          obtain rfl : q = b := by simpa using herr
          exact ⟨by simp, rfl, hqh, hq⟩
        | true =>
          rw [wg_ctx_ok hq hqh] at herr
          simp at herr

/-- A worker that stopped without error at a close or cancellation event has
an empty buffer on return: the final flush delivered everything. -/
lemma workerGo_final_nil (B : Nat) (handler : List α → Bool) (es : List (Event α)) :
    ∀ q : List α, terminated es = true → (workerGo B handler es q).err = none →
      (workerGo B handler es q).finalQueue = [] := by
  induction es with
  | nil => intro q ht _; simp [terminated] at ht
  | cons e es ih =>
    intro q ht herr
    cases e with
    | item a =>
      have ht2 : terminated es = true := by simpa [terminated, isEnd] using ht
      by_cases hB : B ≤ (q ++ [a]).length
      · cases hqh : handler (q ++ [a]) with
        | false =>
          rw [wg_item_flush_err hB hqh] at herr
          simp at herr
        | true =>
          rw [wg_item_flush_ok hB hqh] at herr ⊢
          exact ih [] ht2 herr
      · rw [wg_item_small hB] at herr ⊢
        exact ih (q ++ [a]) ht2 herr
    | tick =>
      have ht2 : terminated es = true := by simpa [terminated, isEnd] using ht
      rcases eq_or_ne q [] with rfl | hq
      · rw [wg_tick_nil] at herr ⊢
        exact ih [] ht2 herr
      · cases hqh : handler q with
        | false =>
          rw [wg_tick_err hq hqh] at herr
          simp at herr
        | true =>
          rw [wg_tick_ok hq hqh] at herr ⊢
          exact ih [] ht2 herr
    | closeCh =>
      rcases eq_or_ne q [] with rfl | hq
      · rw [wg_close_nil]
      · cases hqh : handler q with
        | false =>
          rw [wg_close_err hq hqh] at herr
          simp at herr
        | true =>
          rw [wg_close_ok hq hqh]
    | ctxDone =>
      rcases eq_or_ne q [] with rfl | hq
      · rw [wg_ctx_nil]
      · cases hqh : handler q with
        | false =>
          rw [wg_ctx_err hq hqh] at herr
          simp at herr
        | true =>
          rw [wg_ctx_ok hq hqh]

/-- A worker that completed without error dequeued exactly the items its
trace offered before the first close or cancellation event. -/
lemma workerGo_consumed_ok (B : Nat) (handler : List α → Bool) (es : List (Event α)) :
    ∀ q : List α, (workerGo B handler es q).err = none →
      (workerGo B handler es q).consumed = itemsOf es := by
  induction es with
  | nil => intro q _; rfl
  | cons e es ih =>
    intro q herr
    cases e with
    | item a =>
      by_cases hB : B ≤ (q ++ [a]).length
      · cases hqh : handler (q ++ [a]) with
        | false =>
          rw [wg_item_flush_err hB hqh] at herr
          simp at herr
        | true =>
          rw [wg_item_flush_ok hB hqh] at herr ⊢
          rw [itemsOf]
          simpa using ih [] herr
      · rw [wg_item_small hB] at herr ⊢
        rw [itemsOf]
        simpa using ih (q ++ [a]) herr
    | tick =>
      rcases eq_or_ne q [] with rfl | hq
      · rw [wg_tick_nil] at herr ⊢
        rw [itemsOf]
        exact ih [] herr
      · cases hqh : handler q with
        | false =>
          rw [wg_tick_err hq hqh] at herr
          simp at herr
        | true =>
          rw [wg_tick_ok hq hqh] at herr ⊢
          rw [itemsOf]
          simpa using ih [] herr
    | closeCh =>
      rcases eq_or_ne q [] with rfl | hq
      · rw [wg_close_nil]
        rfl
      · cases hqh : handler q with
        | false =>
          rw [wg_close_err hq hqh] at herr
          simp at herr
        | true =>
          rw [wg_close_ok hq hqh]
          rfl
    | ctxDone =>
      rcases eq_or_ne q [] with rfl | hq
      · rw [wg_ctx_nil]
        rfl
      · cases hqh : handler q with
        | false =>
          rw [wg_ctx_err hq hqh] at herr
          simp at herr
        | true =>
          rw [wg_ctx_ok hq hqh]
          rfl

/-- With a never-failing handler, the batches of a single worker fed
`items` and then closed are exactly the consecutive chunks of size `B` of the
initial buffer followed by the items. -/
lemma workerGo_batches_chunks (B : Nat) (handler : List α → Bool)
    (hh : ∀ l, handler l = true) (items : List α) :
    ∀ q : List α, q.length < B →
      (workerGo B handler (items.map Event.item ++ [Event.closeCh]) q).batches
        = chunksOf B (q ++ items) := by
  induction items with
  | nil =>
    intro q hq
    rcases eq_or_ne q [] with rfl | hne
    · rw [List.map_nil, List.nil_append, wg_close_nil]
      simp [chunksOf]
    · rw [List.map_nil, List.nil_append, wg_close_ok hne (hh q)]
      rw [List.append_nil, chunksOf_of_short B q hne (by omega)]
  | cons a items ih =>
    intro q hq
    rw [List.map_cons, List.cons_append]
    have hlen1 : (q ++ [a]).length = q.length + 1 := by simp
    by_cases hB : B ≤ (q ++ [a]).length
    · have hlen : (q ++ [a]).length = B := by omega
      have hBpos : 0 < B := by omega
      rw [wg_item_flush_ok hB (hh (q ++ [a]))]
      have hrec := ih [] (by simpa using hBpos)
      have happ : q ++ a :: items = (q ++ [a]) ++ items := by simp
      rw [happ, chunksOf_append B (q ++ [a]) items (by simp) hlen]
      simpa using hrec
    · rw [wg_item_small hB]
      have hlen : (q ++ [a]).length < B := by omega
      have hrec := ih (q ++ [a]) hlen
      have happ : q ++ a :: items = (q ++ [a]) ++ items := by simp
      rw [happ]
      simpa using hrec

/-- A worker with a terminated trace and no handler failure delivered in its
batches exactly the items the trace offered, in order. -/
lemma workerGo_flatten_ok (B : Nat) (handler : List α → Bool) (es : List (Event α))
    (hterm : terminated es = true)
    (herr : (workerGo B handler es []).err = none) :
    (workerGo B handler es []).batches.flatten = itemsOf es := by
  have h1 := workerGo_join_ok B handler es [] herr
  rw [workerGo_final_nil B handler es [] hterm herr] at h1
  rw [workerGo_consumed_ok B handler es [] herr] at h1
  simpa using h1

lemma itemsOf_items_close (items : List α) :
    itemsOf (items.map Event.item ++ [Event.closeCh]) = items := by
  induction items with
  | nil => rfl
  | cons a items ih =>
    rw [List.map_cons, List.cons_append, itemsOf, ih]

lemma terminated_items_close (items : List α) :
    terminated (items.map Event.item ++ [Event.closeCh]) = true := by
  simp [terminated, isEnd]

/-! ### Configuration (bucket.New, NewManager) -/

/-- bucket.Config (bucket.go): batch size, flush timeout and worker count.
Go's `int` and `time.Duration` (nanoseconds) are modelled as `Int`. -/
structure BucketConfig where
  batchSize : Int
  timeout : Int
  workerNum : Int
deriving DecidableEq, Repr

/-- bucket.New (bucket.go): replaces each non-positive field with its
default — 100 items, 5 seconds (5e9 ns), 1 worker — and keeps positive
fields.  The Go function additionally returns an error that is always nil. -/
def bucketNew (cfg : BucketConfig) : BucketConfig :=
  { batchSize := if cfg.batchSize ≤ 0 then 100 else cfg.batchSize
    timeout := if cfg.timeout ≤ 0 then 5000000000 else cfg.timeout
    workerNum := if cfg.workerNum ≤ 0 then 1 else cfg.workerNum }

/-- etl.Config (manager.go): maximum number of concurrent pipelines. -/
structure ManagerConfig where
  workerNum : Int
deriving DecidableEq, Repr

/-- NewManager (manager.go): replaces a non-positive WorkerNum with 4. -/
def newManagerCfg (cfg : ManagerConfig) : ManagerConfig :=
  { workerNum := if cfg.workerNum ≤ 0 then 4 else cfg.workerNum }

lemma bucketNew_batchSize_pos (cfg : BucketConfig) :
    1 ≤ (bucketNew cfg).batchSize.toNat := by
  rw [bucketNew]
  by_cases h : cfg.batchSize ≤ 0
  · simp [h]
  · simp only [h, if_false]
    omega

/-! ### ETL.Run and pipelineAdapter.Run (etl.go, manager.go) -/

/-- etl.Payload (etl.go): extracted data plus an error field
(`none` = nil). -/
structure Payload (E : Type) where
  data : E
  err : Option String
deriving DecidableEq, Repr

/-- An ETLProcessor (etl.go) as the orchestrator observes it:
the error each hook returns (`none` = nil), the contents of the channel
Extract returns (`stream`, in order), and the Transform function. -/
structure Proc (E T : Type) where
  preErr : Option String
  extractErr : Option String
  stream : List (Payload E)
  transform : E → T
  loadErr : List T → Option String
  postErr : Option String

/-- One processor-hook invocation, recorded for counting calls. -/
inductive Call where
  | preP
  | extractC
  | loadC
  | postP
deriving DecidableEq, Repr

/-- The stage-tagged error ETL.Run returns (etl.go wraps each stage's error
with fmt.Errorf: "failed to pre-process/extract/run ETL/post-process: %w").
A run failure carries the batch on which Load failed. -/
inductive EtlErr (E : Type) where
  | preFail (e : String)
  | extractFail (e : String)
  | runFail (b : List E)
  | postFail (e : String)
deriving DecidableEq, Repr

/-- The handler ETL.Run passes to Bucket.Run: Transform every item of the
batch, then Load the transformed batch once; `true` = Load returned nil. -/
def etlHandler (p : Proc E T) : List E → Bool :=
  fun batch => (p.loadErr (batch.map p.transform)).isNone

/-- The items the feeder goroutine submits to the bucket: the stream's data
fields up to (excluding) the first payload whose error field is non-nil — at
such a payload the feeder only prints the error, closes the bucket and
returns. -/
def fedItems (p : Proc E T) : List E :=
  (p.stream.takeWhile (fun pl => pl.err.isNone)).map Payload.data

/-- Trace of one ETL.Run: the hook calls made, the batches handed to the
batch handler, and the returned error. -/
structure EtlOut (E : Type) where
  calls : List Call
  batches : List (List E)
  res : Option (EtlErr E)
deriving Repr

/-- ETL.Run (etl.go), sequentialised for a single-worker bucket with no
ticker fires (its deterministic schedule): PreProcess; bucket creation
(never fails; the configured batch size is clamped by bucket.New); Extract;
the feeder feeds `fedItems` and closes the bucket; the worker drains it;
on success PostProcess runs.  An extraction-error payload stops the feed but
produces no returned error (it is only printed). -/
def etlRunT (p : Proc E T) (cfg : BucketConfig) : EtlOut E :=
  match p.preErr with
  | some e => ⟨[Call.preP], [], some (EtlErr.preFail e)⟩
  | none =>
    match p.extractErr with
    | some e => ⟨[Call.preP, Call.extractC], [], some (EtlErr.extractFail e)⟩
    | none =>
      let B := (bucketNew cfg).batchSize.toNat
      let r := workerGo B (etlHandler p) ((fedItems p).map Event.item ++ [Event.closeCh]) []
      let calls := [Call.preP, Call.extractC] ++ r.batches.map (fun _ => Call.loadC)
      match r.err with
      | some b => ⟨calls, r.batches, some (EtlErr.runFail b)⟩
      | none =>
        match p.postErr with
        | some e => ⟨calls ++ [Call.postP], r.batches, some (EtlErr.postFail e)⟩
        | none => ⟨calls ++ [Call.postP], r.batches, none⟩

/-- The error ETL.Run returns (`none` = nil). -/
def etlRun (p : Proc E T) (cfg : BucketConfig) : Option (EtlErr E) :=
  (etlRunT p cfg).res

/-- The error pipelineAdapter.Run returns (manager.go wraps with
"pre-process failed" / "ETL run failed" / "post-process failed"). -/
inductive AdpErr (E : Type) where
  | preFail (e : String)
  | runFail (e : EtlErr E)
  | postFail (e : String)
deriving DecidableEq, Repr

/-- pipelineAdapter.Run (manager.go): calls PreProcess, then ETL.Run (which
itself calls PreProcess and, on success, PostProcess again), then
PostProcess.  Returns the calls made and the error. -/
def adapterRunT (p : Proc E T) (cfg : BucketConfig) : List Call × Option (AdpErr E) :=
  match p.preErr with
  | some e => ([Call.preP], some (AdpErr.preFail e))
  | none =>
    let out := etlRunT p cfg
    match out.res with
    | some e => (Call.preP :: out.calls, some (AdpErr.runFail e))
    | none =>
      match p.postErr with
      | some e => (Call.preP :: out.calls ++ [Call.postP], some (AdpErr.postFail e))
      | none => (Call.preP :: out.calls ++ [Call.postP], none)

/-! ### Bucket.Run error collection and Manager.RunAll (bucket.go, manager.go) -/

/-- First non-`none` entry of a list, or `none`: how Bucket.Run and
Manager.RunAll scan their buffered result channels after all senders have
finished (`for err := range ch { return err }` returns the first non-nil
error in channel order). -/
def firstSome : List (Option β) → Option β
  | [] => none
  | some b :: _ => some b
  | none :: l => firstSome l

/-- Bucket.Run (bucket.go) over an explicit schedule: `traces` lists each
worker's event trace in `errCh` send order; each worker starts with an empty
buffer.  `errCh` has capacity WorkerNum, so every failing worker's error is
recorded, and Run returns the first one (Go additionally tags it with
"worker %d").  The returned value is the batch whose handler call failed,
`none` when no worker failed. -/
def bucketRunFirstErr (B : Nat) (handler : List α → Bool)
    (traces : List (List (Event α))) : Option (List α) :=
  firstSome (traces.map (fun t => (workerGo B handler t []).err))

/-- An ETLRunner as Manager.RunAll observes it: its name and the error its
Run returned (`none` = nil). -/
structure Runner where
  name : String
  res : Option String
deriving DecidableEq, Repr

/-- Manager.RunAll (manager.go): with no registered pipelines it returns
"no pipelines registered" before launching anything.  Otherwise every
pipeline is launched and runs to completion — a failure never cancels the
siblings — and each sends its result (a failure wrapped as
"pipeline NAME failed: ...") into a channel sized to hold all results; after
all have finished, the first error in channel order (the list order here) is
returned.  The first component lists the launched pipelines. -/
def managerRunAllFull (rs : List Runner) : List String × Option String :=
  if rs.isEmpty then ([], some "no pipelines registered")
  else (rs.map Runner.name,
    firstSome (rs.map (fun r =>
      r.res.map (fun e => "pipeline " ++ r.name ++ " failed: " ++ e))))

/-- The error Manager.RunAll returns (`none` = nil). -/
def managerRunAll (rs : List Runner) : Option String :=
  (managerRunAllFull rs).2

/-! ### Go channel semantics for Bucket.Consume / Bucket.Close -/

/-- The state of the bucket's consumer channel as far as send/close panics
are concerned (blocking on a full buffer is not modelled here). -/
structure GoChan (α : Type) where
  closed : Bool
  buf : List α
deriving DecidableEq, Repr

/-- Go runtime semantics of `ch <- v`: sending on a closed channel panics
(`none`); otherwise the value is enqueued. -/
def chanSend (c : GoChan α) (a : α) : Option (GoChan α) :=
  if c.closed then none else some ⟨false, c.buf ++ [a]⟩

/-- Go runtime semantics of `close(ch)`: closing a closed channel panics
(`none`). -/
def chanClose (c : GoChan α) : Option (GoChan α) :=
  if c.closed then none else some ⟨true, c.buf⟩

/-- Bucket.Consume (bucket.go): `b.consumer <- item`. -/
def bucketConsume (c : GoChan α) (a : α) : Option (GoChan α) :=
  chanSend c a

/-- Bucket.Close (bucket.go): `close(b.consumer)`. -/
def bucketClose (c : GoChan α) : Option (GoChan α) :=
  chanClose c

/-! ### Facts about `firstSome` -/

lemma firstSome_eq_none_iff (l : List (Option β)) :
    firstSome l = none ↔ ∀ x ∈ l, x = none := by
  induction l with
  | nil => simp [firstSome]
  | cons x l ih =>
    cases x with
    | none => simpa [firstSome] using ih
    | some b => simp [firstSome]

lemma firstSome_eq_some (l : List (Option β)) (b : β) (h : firstSome l = some b) :
    ∃ pre post, l = pre ++ some b :: post ∧ ∀ y ∈ pre, y = none := by
  induction l with
  | nil => simp [firstSome] at h
  | cons x l ih =>
    cases x with
    | some c =>
      rw [firstSome] at h
      obtain rfl : c = b := by simpa using h
      exact ⟨[], l, rfl, by simp⟩
    | none =>
      rw [firstSome] at h
      obtain ⟨pre, post, rfl, hpre⟩ := ih h
      refine ⟨none :: pre, post, rfl, ?_⟩
      intro y hy
      rcases List.mem_cons.mp hy with rfl | hy2
      · rfl
      · exact hpre y hy2

lemma firstSome_isSome (l : List (Option β)) (h : ∃ x ∈ l, x.isSome) :
    (firstSome l).isSome := by
  by_contra hc
  rw [Option.not_isSome_iff_eq_none, firstSome_eq_none_iff] at hc
  obtain ⟨x, hx, hs⟩ := h
  rw [hc x hx] at hs
  simp at hs

/-- The error Bucket.Run surfaces comes from the first failing worker in
`errCh` send order; every worker before it succeeded. -/
lemma bucketRunFirstErr_split (B : Nat) (handler : List α → Bool) :
    ∀ (traces : List (List (Event α))) (b : List α),
      bucketRunFirstErr B handler traces = some b →
      ∃ pre t post, traces = pre ++ t :: post ∧
        (workerGo B handler t []).err = some b ∧
        ∀ t2 ∈ pre, (workerGo B handler t2 []).err = none := by
  intro traces
  induction traces with
  | nil => intro b h; simp [bucketRunFirstErr, firstSome] at h
  | cons t traces ih =>
    intro b h
    rw [bucketRunFirstErr, List.map_cons] at h
    cases he : (workerGo B handler t []).err with
    | some c =>
      rw [he, firstSome] at h
      obtain rfl : c = b := by simpa using h
      exact ⟨[], t, traces, rfl, he, by simp⟩
    | none =>
      rw [he, firstSome] at h
      obtain ⟨pre, t2, post, rfl, h1, h2⟩ := ih b h
      refine ⟨t :: pre, t2, post, rfl, h1, ?_⟩
      intro t3 ht3
      rcases List.mem_cons.mp ht3 with rfl | ht4
      · exact he
      · exact h2 t3 ht4

/-- RunAll's scan of the results channel returns the first failing
pipeline's error, wrapped with its name. -/
lemma managerRunAll_find (rs : List Runner) (r : Runner) (e : String)
    (hfind : rs.find? (fun x => x.res.isSome) = some r) (hres : r.res = some e) :
    firstSome (rs.map (fun x =>
        x.res.map (fun s => "pipeline " ++ x.name ++ " failed: " ++ s)))
      = some ("pipeline " ++ r.name ++ " failed: " ++ e) := by
  induction rs with
  | nil => simp at hfind
  | cons x rs ih =>
    by_cases hx : x.res.isSome
    · rw [List.find?_cons_of_pos _ (by simpa using hx)] at hfind
      obtain rfl : x = r := by simpa using hfind
      rw [List.map_cons, hres]
      rfl
    · rw [List.find?_cons_of_neg _ (by simpa using hx)] at hfind
      have hxnone : x.res = none := Option.not_isSome_iff_eq_none.mp hx
      rw [List.map_cons, hxnone]
      rw [Option.map_none', firstSome]
      exact ih hfind

/-! ### Claims -/

/-- C3: for one worker with batch size `B`, submitting `items` then closing
(no timer fires) delivers, in submission order, exactly
`ceil(items.length / B)` batches whose concatenation is the submitted
sequence, all but the last of size `B`, the last of size
`items.length % B` (or `B` when `B` divides `items.length`). -/
theorem singleWorker_batches_exact (B : Nat) (handler : List α → Bool)
    (items : List α) (hB : 1 ≤ B) (hh : ∀ l, handler l = true) :
    ((workerGo B handler (items.map Event.item ++ [Event.closeCh]) []).batches).flatten
        = items ∧
    ((workerGo B handler (items.map Event.item ++ [Event.closeCh]) []).batches).length
        = (items.length + B - 1) / B ∧
    (∀ c ∈ ((workerGo B handler (items.map Event.item ++ [Event.closeCh]) []).batches).dropLast,
        c.length = B) ∧
    (items ≠ [] →
      (((workerGo B handler (items.map Event.item ++ [Event.closeCh]) []).batches).getLast?).map
          List.length
        = some (if items.length % B = 0 then B else items.length % B)) := by
  have hch := workerGo_batches_chunks B handler hh items [] (by simpa using hB)
  rw [List.nil_append] at hch
  rw [hch]
  exact ⟨chunksOf_flatten B items, chunksOf_length B items hB,
    chunksOf_dropLast B items hB, fun hne => chunksOf_getLast B items hB hne⟩

/-- Witness for C3 at `B = 3`, items `[1,…,7]`: batches `[1,2,3] [4,5,6] [7]`. -/
theorem singleWorker_batches_exact_witness :
    ((workerGo 3 (fun _ => true) (([1, 2, 3, 4, 5, 6, 7] : List Nat).map Event.item ++ [Event.closeCh]) []).batches).flatten = [1, 2, 3, 4, 5, 6, 7] ∧
    ((workerGo 3 (fun _ => true) (([1, 2, 3, 4, 5, 6, 7] : List Nat).map Event.item ++ [Event.closeCh]) []).batches).length = (([1, 2, 3, 4, 5, 6, 7] : List Nat).length + 3 - 1) / 3 ∧
    (∀ c ∈ ((workerGo 3 (fun _ => true) (([1, 2, 3, 4, 5, 6, 7] : List Nat).map Event.item ++ [Event.closeCh]) []).batches).dropLast,
        c.length = 3) ∧
    (([1, 2, 3, 4, 5, 6, 7] : List Nat) ≠ [] →
      (((workerGo 3 (fun _ => true) (([1, 2, 3, 4, 5, 6, 7] : List Nat).map Event.item ++ [Event.closeCh]) []).batches).getLast?).map List.length
        = some (if ([1, 2, 3, 4, 5, 6, 7] : List Nat).length % 3 = 0 then 3
            else ([1, 2, 3, 4, 5, 6, 7] : List Nat).length % 3)) :=
  singleWorker_batches_exact 3 (fun _ => true) [1, 2, 3, 4, 5, 6, 7]
    (by decide) (fun _ => rfl)

/-- C4: for any schedule of a run with `workerCount ≥ 1` workers that all
terminate without a handler failure, the multiset of all delivered batches'
items equals the multiset of submitted items: nothing lost, nothing
duplicated. -/
theorem bucketRun_no_loss (B W : Nat) (handler : List α → Bool)
    (traces : List (List (Event α))) (submitted : List α)
    (hW : 1 ≤ W) (hlen : traces.length = W)
    (hterm : ∀ t ∈ traces, terminated t = true)
    (hdisp : ((traces.map itemsOf).flatten).Perm submitted)
    (hok : ∀ t ∈ traces, (workerGo B handler t []).err = none) :
    ((traces.map (fun t => (workerGo B handler t []).batches.flatten)).flatten).Perm
      submitted := by
  clear hW hlen
  have hmap : traces.map (fun t => (workerGo B handler t []).batches.flatten)
      = traces.map itemsOf :=
    List.map_congr_left (fun t ht =>
      workerGo_flatten_ok B handler t (hterm t ht) (hok t ht))
  rw [hmap]
  exact hdisp

/-- Witness for C4: two workers splitting `[1,2,3]` as `[1,3]` / `[2]`. -/
theorem bucketRun_no_loss_witness :
    ((([[Event.item 1, Event.item 3, Event.closeCh],
        [Event.item 2, Event.closeCh]] : List (List (Event Nat))).map
      (fun t => (workerGo 2 (fun _ => true) t []).batches.flatten)).flatten).Perm
      [1, 2, 3] :=
  bucketRun_no_loss 2 2 (fun _ => true)
    [[Event.item 1, Event.item 3, Event.closeCh], [Event.item 2, Event.closeCh]]
    [1, 2, 3] (by decide) (by decide) (by decide) (by decide) (by decide)

/-- C7: if the handler fails on some batch, Bucket.Run surfaces a non-nil
error wrapping an actual handler failure; the surfaced error is the first
failing worker's (workers that sent before it all succeeded — later failures
are discarded); and no worker loses a dequeued item: everything each worker
dequeued was handed to the handler in some batch. -/
theorem bucketRun_handler_failure (B : Nat) (handler : List α → Bool)
    (traces : List (List (Event α)))
    (hterm : ∀ t ∈ traces, terminated t = true)
    (hfail : ∃ t ∈ traces, ((workerGo B handler t []).err).isSome) :
    (∃ b, bucketRunFirstErr B handler traces = some b ∧ handler b = false ∧ b ≠ []) ∧
    (∀ b, bucketRunFirstErr B handler traces = some b →
      ∃ pre t post, traces = pre ++ t :: post ∧
        (workerGo B handler t []).err = some b ∧
        ∀ t2 ∈ pre, (workerGo B handler t2 []).err = none) ∧
    (∀ t ∈ traces, (workerGo B handler t []).batches.flatten
        = (workerGo B handler t []).consumed) := by
  refine ⟨?_, fun b hb => bucketRunFirstErr_split B handler traces b hb, ?_⟩
  · have hsome : (firstSome (traces.map (fun t => (workerGo B handler t []).err))).isSome := by
      apply firstSome_isSome
      obtain ⟨t, ht, hs⟩ := hfail
      exact ⟨(workerGo B handler t []).err, List.mem_map_of_mem _ ht, hs⟩
    obtain ⟨b, hb⟩ := Option.isSome_iff_exists.mp hsome
    obtain ⟨pre, t, post, _, he, _⟩ := bucketRunFirstErr_split B handler traces b hb
    obtain ⟨_, _, h3, h4⟩ := workerGo_join_err B handler t [] b he
    exact ⟨b, hb, h3, h4⟩
  · intro t ht
    cases he : (workerGo B handler t []).err with
    | some b =>
      have := (workerGo_join_err B handler t [] b he).1
      simpa using this
    | none =>
      rw [workerGo_flatten_ok B handler t (hterm t ht) he,
        workerGo_consumed_ok B handler t [] he]

/-- Witness for C7: with `B = 1`, a handler failing exactly on batch `[2]`,
and two workers, the second of which dequeues item 2. -/
theorem bucketRun_handler_failure_witness :
    (∃ b, bucketRunFirstErr 1 (fun l => decide (l ≠ [2]))
        [[Event.item 1, Event.closeCh], [Event.item 2, Event.item 3, Event.closeCh]]
        = some b ∧ (fun (l : List Nat) => decide (l ≠ [2])) b = false ∧ b ≠ []) ∧
    (∀ b, bucketRunFirstErr 1 (fun l => decide (l ≠ [2]))
        [[Event.item 1, Event.closeCh], [Event.item 2, Event.item 3, Event.closeCh]]
        = some b →
      ∃ pre t post,
        ([[Event.item 1, Event.closeCh],
          [Event.item 2, Event.item 3, Event.closeCh]] : List (List (Event Nat)))
          = pre ++ t :: post ∧
        (workerGo 1 (fun l => decide (l ≠ [2])) t []).err = some b ∧
        ∀ t2 ∈ pre, (workerGo 1 (fun l => decide (l ≠ [2])) t2 []).err = none) ∧
    (∀ t ∈ ([[Event.item 1, Event.closeCh],
        [Event.item 2, Event.item 3, Event.closeCh]] : List (List (Event Nat))),
      (workerGo 1 (fun l => decide (l ≠ [2])) t []).batches.flatten
        = (workerGo 1 (fun l => decide (l ≠ [2])) t []).consumed) :=
  bucketRun_handler_failure 1 (fun l => decide (l ≠ [2]))
    [[Event.item 1, Event.closeCh], [Event.item 2, Event.item 3, Event.closeCh]]
    (by decide) (by decide)

/-- C8: bucket creation replaces each non-positive configuration field with
its default (100 items, 5 s, 1 worker) and keeps positive fields; manager
creation replaces a non-positive pipeline concurrency with 4 and keeps a
positive one. -/
theorem config_defaults_clamped (c : BucketConfig) (m : ManagerConfig) :
    ((c.batchSize ≤ 0 → (bucketNew c).batchSize = 100) ∧
     (0 < c.batchSize → (bucketNew c).batchSize = c.batchSize)) ∧
    ((c.timeout ≤ 0 → (bucketNew c).timeout = 5000000000) ∧
     (0 < c.timeout → (bucketNew c).timeout = c.timeout)) ∧
    ((c.workerNum ≤ 0 → (bucketNew c).workerNum = 1) ∧
     (0 < c.workerNum → (bucketNew c).workerNum = c.workerNum)) ∧
    ((m.workerNum ≤ 0 → (newManagerCfg m).workerNum = 4) ∧
     (0 < m.workerNum → (newManagerCfg m).workerNum = m.workerNum)) := by
  rw [bucketNew, newManagerCfg]
  refine ⟨⟨fun h => by simp [h], fun h => by simp [h]⟩,
    ⟨fun h => by simp [h], fun h => by simp [h]⟩,
    ⟨fun h => by simp [h], fun h => by simp [h]⟩,
    ⟨fun h => by simp [h], fun h => by simp [h]⟩⟩

/-- Witness for C8: non-positive batch size and timeout get the defaults,
positive worker counts are kept. -/
theorem config_defaults_clamped_witness :
    (bucketNew ⟨0, -7, 3⟩).batchSize = 100 ∧
    (bucketNew ⟨0, -7, 3⟩).timeout = 5000000000 ∧
    (bucketNew ⟨0, -7, 3⟩).workerNum = 3 ∧
    (newManagerCfg ⟨0⟩).workerNum = 4 :=
  ⟨(config_defaults_clamped ⟨0, -7, 3⟩ ⟨0⟩).1.1 (by decide),
   (config_defaults_clamped ⟨0, -7, 3⟩ ⟨0⟩).2.1.1 (by decide),
   (config_defaults_clamped ⟨0, -7, 3⟩ ⟨0⟩).2.2.1.2 (by decide),
   (config_defaults_clamped ⟨0, -7, 3⟩ ⟨0⟩).2.2.2.1 (by decide)⟩

/-- C9: RunAll with zero registered pipelines returns the
"no pipelines registered" error and launches no pipeline task. -/
theorem runAll_empty_error :
    managerRunAllFull ([] : List Runner) = ([], some "no pipelines registered") := rfl

/-- C6: RunAll collects every pipeline's result (all are launched and run to
completion; none is cancelled because a sibling failed); it returns nil iff
every pipeline succeeded, and otherwise the first encountered failure,
wrapped with that pipeline's name. -/
theorem runAll_first_failure (rs : List Runner) (hne : rs ≠ []) :
    ((managerRunAll rs = none) ↔ (∀ r ∈ rs, r.res = none)) ∧
    (∀ r e, rs.find? (fun x => x.res.isSome) = some r → r.res = some e →
      managerRunAll rs = some ("pipeline " ++ r.name ++ " failed: " ++ e)) ∧
    (managerRunAllFull rs).1 = rs.map Runner.name := by
  have hempty : rs.isEmpty = false := by
    rw [List.isEmpty_eq_false_iff_exists_mem]
    rcases rs with _ | ⟨x, l⟩
    · exact absurd rfl hne
    · exact ⟨x, by simp⟩
  refine ⟨?_, ?_, ?_⟩
  · rw [managerRunAll, managerRunAllFull, hempty]
    simp only [Bool.false_eq_true, if_false]
    rw [firstSome_eq_none_iff]
    constructor
    · intro h r hr
      have := h _ (List.mem_map_of_mem _ hr)
      simpa using this
    · intro h x hx
      obtain ⟨r, hr, rfl⟩ := List.mem_map.mp hx
      rw [h r hr]
      rfl
  · intro r e hfind hres
    rw [managerRunAll, managerRunAllFull, hempty]
    simp only [Bool.false_eq_true, if_false]
    exact managerRunAll_find rs r e hfind hres
  · rw [managerRunAllFull, hempty]
    simp

/-- Witness for C6: of three pipelines, B fails; RunAll reports B by name,
and it would return nil only if all succeeded. -/
theorem runAll_first_failure_witness :
    managerRunAll [⟨"A", none⟩, ⟨"B", some "load failed"⟩, ⟨"C", none⟩]
      = some ("pipeline " ++ "B" ++ " failed: " ++ "load failed") :=
  (runAll_first_failure
      [⟨"A", none⟩, ⟨"B", some "load failed"⟩, ⟨"C", none⟩] (by simp)).2.1
    ⟨"B", some "load failed"⟩ "load failed" (by decide) rfl

/-- C10: on an open channel, the first Close succeeds; a second Close and
any Consume after Close panic (close of / send on a closed channel). -/
theorem bucket_close_twice_panics (c : GoChan α) (h : c.closed = false) (a : α) :
    ∃ c2, bucketClose c = some c2 ∧ bucketClose c2 = none ∧
      bucketConsume c2 a = none := by
  refine ⟨⟨true, c.buf⟩, ?_, rfl, rfl⟩
  rw [bucketClose, chanClose, h]
  rfl

/-- Witness for C10 on a fresh open channel. -/
theorem bucket_close_twice_panics_witness :
    ∃ c2, bucketClose (⟨false, []⟩ : GoChan Nat) = some c2 ∧
      bucketClose c2 = none ∧ bucketConsume c2 0 = none :=
  bucket_close_twice_panics ⟨false, []⟩ rfl 0

/-- A processor whose extraction stream emits an error payload in second
position while every hook succeeds. -/
def procExtractErr : Proc Nat Nat where
  preErr := none
  extractErr := none
  stream := [⟨7, none⟩, ⟨0, some "cursor error"⟩, ⟨8, none⟩]
  transform := fun x => x + 1
  loadErr := fun _ => none
  postErr := none

/-- A small single-worker bucket configuration. -/
def cfgSmall : BucketConfig := ⟨2, 1000000000, 1⟩

/-- C1, counterexample: this processor's extraction stream emits a payload
with a non-nil error, yet ETL.Run returns nil — the extraction failure is
printed by the feeder and otherwise dropped, not returned. -/
theorem etlRun_swallows_extraction_error :
    (procExtractErr.stream.any (fun pl => pl.err.isSome)) = true ∧
    etlRun procExtractErr cfgSmall = none := by
  constructor
  · rfl
  · rfl

/-- C1, amended: on an extraction-error payload the feeder stops feeding and
closes the engine — the items handed to batches are exactly those extracted
before the first error payload — but the extraction error itself is only
logged: whenever pre-process, extraction start, every load and post-process
succeed, ETL.Run returns nil even if the stream contains an error payload. -/
theorem etlRun_extraction_error_amended (p : Proc E T) (cfg : BucketConfig)
    (hpre : p.preErr = none) (hext : p.extractErr = none)
    (hload : ∀ l, p.loadErr l = none) (hpost : p.postErr = none) :
    etlRun p cfg = none ∧
    ((etlRunT p cfg).batches).flatten = fedItems p := by
  have hh : ∀ l, etlHandler p l = true := by
    intro l
    simp [etlHandler, hload]
  have herr := workerGo_err_none ((bucketNew cfg).batchSize.toNat) (etlHandler p) hh
      ((fedItems p).map Event.item ++ [Event.closeCh]) []
  have hflat := workerGo_flatten_ok ((bucketNew cfg).batchSize.toNat) (etlHandler p)
      ((fedItems p).map Event.item ++ [Event.closeCh])
      (terminated_items_close (fedItems p)) herr
  rw [itemsOf_items_close] at hflat
  constructor
  · rw [etlRun]
    simp [etlRunT, hpre, hext, hpost, herr]
  · simp [etlRunT, hpre, hext, hpost, herr]
    exact hflat

/-- Witness for the amended C1 on `procExtractErr`: the run returns nil and
processes exactly the one item before the error payload. -/
theorem etlRun_extraction_error_amended_witness :
    etlRun procExtractErr cfgSmall = none ∧
    ((etlRunT procExtractErr cfgSmall).batches).flatten = fedItems procExtractErr :=
  etlRun_extraction_error_amended procExtractErr cfgSmall rfl rfl (fun _ => rfl) rfl

/-- A processor for which everything succeeds. -/
def procAllOk : Proc Nat Nat where
  preErr := none
  extractErr := none
  stream := [⟨1, none⟩, ⟨2, none⟩, ⟨3, none⟩]
  transform := fun x => x * 2
  loadErr := fun _ => none
  postErr := none

/-- C2: a pipeline registered through AddPipelineGeneric runs via
pipelineAdapter.Run, which invokes PreProcess itself and again inside
ETL.Run, and likewise PostProcess: a successful run calls each hook exactly
twice, not once. -/
theorem adapterRun_calls_hooks_twice (p : Proc E T) (cfg : BucketConfig)
    (hok : (adapterRunT p cfg).2 = none) :
    ((adapterRunT p cfg).1.count Call.preP = 2) ∧
    ((adapterRunT p cfg).1.count Call.postP = 2) := by
  cases hpre : p.preErr with
  | some e => simp [adapterRunT, hpre] at hok
  | none =>
    cases hext : p.extractErr with
    | some e => simp [adapterRunT, etlRunT, hpre, hext] at hok
    | none =>
      cases herr : (workerGo ((bucketNew cfg).batchSize.toNat) (etlHandler p)
          ((fedItems p).map Event.item ++ [Event.closeCh]) []).err with
      | some b => simp [adapterRunT, etlRunT, hpre, hext, herr] at hok
      | none =>
        cases hpost : p.postErr with
        | some e => simp [adapterRunT, etlRunT, hpre, hext, herr, hpost] at hok
        | none =>
          have hcalls : (adapterRunT p cfg).1 =
              Call.preP :: (([Call.preP, Call.extractC]
                ++ ((workerGo ((bucketNew cfg).batchSize.toNat) (etlHandler p)
                      ((fedItems p).map Event.item ++ [Event.closeCh]) []).batches).map
                    (fun _ => Call.loadC)) ++ [Call.postP]) ++ [Call.postP] := by
            simp [adapterRunT, etlRunT, hpre, hext, herr, hpost]
          rw [hcalls]
          constructor <;>
            simp [List.count_cons, List.count_append, List.count_replicate]

/-- Witness for C2 on an all-success pipeline. -/
theorem adapterRun_calls_hooks_twice_witness :
    ((adapterRunT procAllOk cfgSmall).1.count Call.preP = 2) ∧
    ((adapterRunT procAllOk cfgSmall).1.count Call.postP = 2) :=
  adapterRun_calls_hooks_twice procAllOk cfgSmall (by decide)

/-- C5, counterexample: a failing handler invocation does not reset the
buffer — the `queue = queue[:0]` line is skipped when `processFunc` errors,
both at a single flush and at the worker's return. -/
theorem flush_no_reset_on_failure :
    flushGo (fun _ => false) ([1, 2] : List Nat) = ([1, 2], some [1, 2]) ∧
    ([1, 2] : List Nat) ≠ [] ∧
    (workerGo 2 (fun _ => false)
        [Event.item 1, Event.item 2, Event.closeCh] ([] : List Nat)).finalQueue
      = [1, 2] := by
  refine ⟨rfl, by decide, rfl⟩

/-- C5, amended: after a successful handler invocation the buffer is reset
to empty; after a failing invocation the buffer keeps the failing batch and
the worker returns the handler's error at once. -/
theorem flush_reset_amended (handler : List α → Bool) (q : List α) :
    ((flushGo handler q).2 = none → (flushGo handler q).1 = []) ∧
    (∀ b, (flushGo handler q).2 = some b → (flushGo handler q).1 = b) ∧
    (∀ B es b, (workerGo B handler es q).err = some b →
      (workerGo B handler es q).finalQueue = b) := by
  refine ⟨?_, ?_, ?_⟩
  · intro h
    rcases eq_or_ne q [] with rfl | hq
    · rw [flushGo_nil]
    · cases hqh : handler q with
      | true => rw [flushGo_true hqh]
      | false => rw [flushGo_false hq hqh] at h; simp at h
  · intro b h
    rcases eq_or_ne q [] with rfl | hq
    · rw [flushGo_nil] at h; simp at h
    · cases hqh : handler q with
      | true => rw [flushGo_true hqh] at h; simp at h
      | false =>
        rw [flushGo_false hq hqh] at h ⊢
        simpa using h
  · intro B es b h
    exact (workerGo_join_err B handler es q b h).2.1

/-- Witness for the amended C5: a successful flush leaves an empty buffer;
a failing worker run keeps the failing batch in the buffer. -/
theorem flush_reset_amended_witness :
    (flushGo (fun _ => true) ([5] : List Nat)).1 = [] ∧
    (workerGo 2 (fun _ => false)
        [Event.item 1, Event.item 2, Event.closeCh] ([] : List Nat)).finalQueue
      = [1, 2] :=
  ⟨(flush_reset_amended (fun _ => true) [5]).1 (by decide),
   (flush_reset_amended (fun _ => false) []).2.2 2
     [Event.item 1, Event.item 2, Event.closeCh] [1, 2] (by decide)⟩

end GoEtl
